import Mathlib

/-!
Verification development for the mobile-name-lookup service.

The Go program under study normalizes free-form phone-number input into a
canonical 10-digit number, consults a MySQL-backed record store as a
lookaside cache, calls an upstream name-lookup API with bounded retries on
a cache miss, persists successful resolutions, and guards the HTTP surface
with a per-IP token-bucket rate limiter.  This file gives a shallow
embedding of those components and proves the specified properties.
-/

namespace MobileLookup

/-! ## Number normalizer (`cleanPhoneNumber`, src/main.go) -/

/-- Digit filtering performed by `re.ReplaceAllString(phone, "")` with the
pattern matching every non-digit character: only the ASCII digits survive. -/
def stripNonDigits (phone : String) : List Char :=
  phone.toList.filter Char.isDigit

/-- Country-code stripping step of `cleanPhoneNumber`: inside the
`len(digits) > 10` branch the code tries, in order, the `91`/length-12,
`1`/length-11 and `44`/length-12 prefix rules and otherwise keeps the last
10 digits. -/
def stripCountryCode (digits : List Char) : List Char :=
  if 10 < digits.length then
    if List.isPrefixOf ['9', '1'] digits ∧ digits.length = 12 then
      digits.drop 2
    else if List.isPrefixOf ['1'] digits ∧ digits.length = 11 then
      digits.drop 1
    else if List.isPrefixOf ['4', '4'] digits ∧ digits.length = 12 then
      digits.drop 2
    else if 10 < digits.length then
      digits.drop (digits.length - 10)
    else
      digits
  else
    digits

/-- The regular-expression check of the final validation step: the pattern
accepts exactly the strings of a digit in `6`–`9` followed by nine digits. -/
def validMobile : List Char → Bool
  | [] => false
  | c :: rest => ('6' ≤ c && c ≤ '9') && rest.length = 9 && rest.all Char.isDigit

/-- Shallow embedding of `cleanPhoneNumber` from src/main.go: strip every
non-digit, fail on an empty digit string, strip a recognized country code
(or right-truncate) when more than 10 digits remain, then require exactly
10 digits matching the mobile pattern. -/
def cleanPhoneNumber (phone : String) : Except String String :=
  let digits := stripNonDigits phone
  if digits.length = 0 then
    .error "no digits found in phone number"
  else
    let digits := stripCountryCode digits
    if digits.length ≠ 10 then
      .error ("invalid phone number length: " ++ toString digits.length ++
        " digits (expected 10)")
    else if ¬ validMobile digits then
      .error "invalid mobile number format"
    else
      .ok (String.mk digits)

/-! Basic facts about the normalizer. -/

theorem stripCountryCode_sublist (l : List Char) :
    (stripCountryCode l).Sublist l := by
  unfold stripCountryCode
  repeat' split
  all_goals first
    | exact List.drop_sublist _ _
    | exact List.Sublist.refl _

theorem stripNonDigits_all_digits (phone : String) :
    (stripNonDigits phone).all Char.isDigit := by
  simp only [stripNonDigits, List.all_eq_true]
  intro c hc
  exact (List.mem_filter.mp hc).2

/-- Every character surviving `cleanPhoneNumber` is a digit, the result has
length 10, and its first character lies in `6`–`9`. -/
theorem cleanPhoneNumber_ok_shape (x y : String)
    (h : cleanPhoneNumber x = .ok y) :
    y.toList.length = 10 ∧ validMobile y.toList = true ∧
      y.toList.all Char.isDigit = true := by
  unfold cleanPhoneNumber at h
  simp only at h
  split at h
  · exact absurd h (by simp)
  · split at h
    · exact absurd h (by simp)
    · split at h
      · exact absurd h (by simp)
      · rename_i hne hlen hvalid
        have hy : y = String.mk (stripCountryCode (stripNonDigits x)) := by
          cases h; rfl
        subst hy
        have hds : (String.mk (stripCountryCode (stripNonDigits x))).toList
            = stripCountryCode (stripNonDigits x) := rfl
        rw [hds]
        refine ⟨by omega, by simpa using hvalid, ?_⟩
         -- the stripped list is a sublist of the all-digit list
        have hsub := stripCountryCode_sublist (stripNonDigits x)
        have hall := stripNonDigits_all_digits x
        simp only [List.all_eq_true] at hall ⊢
        intro c hc
        exact hall c (hsub.mem hc)

/-- A list of length 10 is unchanged by the country-code stripping step. -/
theorem stripCountryCode_len10 (l : List Char) (h : l.length = 10) :
    stripCountryCode l = l := by
  unfold stripCountryCode
  rw [if_neg]
  omega

/-- A list of digits is unchanged by the digit filter. -/
theorem filter_digits_self (l : List Char) (h : l.all Char.isDigit = true) :
    l.filter Char.isDigit = l := by
  rw [List.filter_eq_self]
  intro c hc
  exact (List.all_eq_true.mp h) c hc

/-- Normalization is idempotent on its successes: a canonical output passes
through `cleanPhoneNumber` unchanged. -/
theorem cleanPhoneNumber_idempotent (x y : String)
    (h : cleanPhoneNumber x = .ok y) : cleanPhoneNumber y = .ok y := by
  obtain ⟨hlen, hvalid, hdig⟩ := cleanPhoneNumber_ok_shape x y h
  have hstrip : stripNonDigits y = y.toList := filter_digits_self _ hdig
  simp only [cleanPhoneNumber, hstrip]
  rw [if_neg (by omega : ¬ y.toList.length = 0),
    stripCountryCode_len10 _ hlen,
    if_neg (by omega : ¬ y.toList.length ≠ 10),
    if_neg (fun hc => hc hvalid)]
  rfl

/-! ## Spec-side restatement of the normalization algorithm (claim C3) -/

/-- Spec-side country-code stripping, written from the specification's
words: the priority pairs `("91", 12)`, `("1", 11)`, `("44", 12)` strip the
matched country-code, and any other digit string longer than 10 is
right-truncated to its last 10 digits. -/
def stripCountryCodeSpec (ds : List Char) : List Char :=
  if ds.length = 12 ∧ ds.take 2 = ['9', '1'] then ds.drop 2
  else if ds.length = 11 ∧ ds.take 1 = ['1'] then ds.drop 1
  else if ds.length = 12 ∧ ds.take 2 = ['4', '4'] then ds.drop 2
  else if 10 < ds.length then ds.drop (ds.length - 10)
  else ds

/-- Digit string obtained from a raw input after the digit filter and
country-code handling, per the specification's description. -/
def canonicalDigits (x : String) : List Char :=
  stripCountryCodeSpec (stripNonDigits x)

/-- Spec-side leading-digit constraint: the first digit lies in
`{6, 7, 8, 9}`. -/
def leadingDigitOk : List Char → Bool
  | [] => false
  | c :: _ => c = '6' || c = '7' || c = '8' || c = '9'

theorem isPrefixOf_iff_take (p l : List Char) :
    List.isPrefixOf p l = true ↔ l.take p.length = p := by
  rw [ List.isPrefixOf_iff_prefix, List.prefix_iff_eq_take]
  exact ⟨fun h => h.symm, fun h => h.symm⟩

theorem stripCountryCode_eq_spec (l : List Char) :
    stripCountryCode l = stripCountryCodeSpec l := by
  simp only [stripCountryCode, stripCountryCodeSpec, isPrefixOf_iff_take,
    List.length_cons, List.length_singleton, List.length_nil]
  split_ifs <;> first | rfl | omega | tauto

theorem char_six_to_nine (c : Char) (hc : c.isDigit = true) :
    (('6' ≤ c && c ≤ '9') = true) ↔ (c = '6' ∨ c = '7' ∨ c = '8' ∨ c = '9') := by
  simp only [Char.isDigit, Bool.and_eq_true, decide_eq_true_eq] at hc
  simp only [Bool.and_eq_true, decide_eq_true_eq]
  constructor
  · rintro ⟨h1, h2⟩
    rw [Char.le_def] at h1 h2
    have h1' : 54 ≤ c.val.toNat := h1
    have h2' : c.val.toNat ≤ 57 := h2
    have hv : c.val.toNat = 54 ∨ c.val.toNat = 55 ∨ c.val.toNat = 56 ∨
        c.val.toNat = 57 := by omega
    rcases hv with h | h | h | h
    · exact Or.inl (Char.ext (UInt32.ext h))
    · exact Or.inr (Or.inl (Char.ext (UInt32.ext h)))
    · exact Or.inr (Or.inr (Or.inl (Char.ext (UInt32.ext h))))
    · exact Or.inr (Or.inr (Or.inr (Char.ext (UInt32.ext h))))
  · rintro (rfl | rfl | rfl | rfl) <;> exact ⟨by decide, by decide⟩

/-- On all-digit strings the regular-expression check of the code agrees
with the spec-side length-and-leading-digit condition. -/
theorem validMobile_iff (d : List Char) (hd : d.all Char.isDigit = true) :
    validMobile d = true ↔ (d.length = 10 ∧ leadingDigitOk d = true) := by
  cases d with
  | nil => simp [validMobile, leadingDigitOk]
  | cons c rest =>
    simp only [List.all_cons, Bool.and_eq_true] at hd
    simp only [validMobile, leadingDigitOk, Bool.and_eq_true,
      decide_eq_true_eq, List.length_cons]
    have hch : ('6' ≤ c ∧ c ≤ '9') ↔ (c = '6' ∨ c = '7' ∨ c = '8' ∨ c = '9') := by
      simpa [Bool.and_eq_true, decide_eq_true_eq] using char_six_to_nine c hd.1
    rw [hch]
    constructor
    · rintro ⟨⟨hrange, hlen⟩, _⟩
      refine ⟨by omega, ?_⟩
      simp only [Bool.or_eq_true, decide_eq_true_eq]
      tauto
    · rintro ⟨hlen, hlead⟩
      simp only [Bool.or_eq_true, decide_eq_true_eq] at hlead
      exact ⟨⟨by tauto, by omega⟩, hd.2⟩

theorem canonicalDigits_all_digits (x : String) :
    (canonicalDigits x).all Char.isDigit = true := by
  have h := stripCountryCode_sublist (stripNonDigits x)
  rw [stripCountryCode_eq_spec] at h
  have hall := stripNonDigits_all_digits x
  simp only [List.all_eq_true] at hall ⊢
  intro c hc
  exact hall c (h.mem hc)

/-- Success characterization of `cleanPhoneNumber`: after digit filtering
and country-code handling, normalization succeeds exactly when 10 digits
remain and the leading digit lies in `{6, 7, 8, 9}`. -/
theorem cleanPhoneNumber_ok_iff (x : String) :
    (∃ y, cleanPhoneNumber x = .ok y) ↔
      stripNonDigits x ≠ [] ∧ (canonicalDigits x).length = 10 ∧
      (canonicalDigits x).all Char.isDigit = true ∧
      leadingDigitOk (canonicalDigits x) = true := by
  have hcd : stripCountryCode (stripNonDigits x) = canonicalDigits x :=
    stripCountryCode_eq_spec _
  have hall := canonicalDigits_all_digits x
  have hvv := validMobile_iff (canonicalDigits x) hall
  constructor
  · rintro ⟨y, hy⟩
    simp only [cleanPhoneNumber, hcd] at hy
    split_ifs at hy with h0 hlen hval
    all_goals try cases hy
    refine ⟨?_, by omega, hall, (hvv.mp (by simpa using hval)).2⟩
    intro hnil
    simp [hnil] at h0
  · rintro ⟨hne, hlen, _, hlead⟩
    have hval : validMobile (canonicalDigits x) = true := hvv.mpr ⟨hlen, hlead⟩
    refine ⟨String.mk (canonicalDigits x), ?_⟩
    simp only [cleanPhoneNumber, hcd]
    rw [if_neg (by simpa [List.length_eq_zero] using hne),
      if_neg (by omega : ¬ (canonicalDigits x).length ≠ 10),
      if_neg (fun hc => hc hval)]

/-- The value returned by a successful normalization is exactly the digit
string produced by the filter-and-strip algorithm. -/
theorem cleanPhoneNumber_ok_val (x y : String) (h : cleanPhoneNumber x = .ok y) :
    y = String.mk (canonicalDigits x) := by
  have hcd : stripCountryCode (stripNonDigits x) = canonicalDigits x :=
    stripCountryCode_eq_spec _
  simp only [cleanPhoneNumber, hcd] at h
  split_ifs at h
  all_goals cases h
  rfl

/-- C2: normalization is idempotent — for every input on which
`cleanPhoneNumber` succeeds, applying it again to the result is a no-op —
and the differently formatted variants `"8318090007"`,
`"+91 83180 90007"` and `"+91-83180-90007"` of the same subscriber number
all normalize to the canonical number `"8318090007"`. -/
theorem claim_C2_normalization_idempotent_and_format_invariant :
    (∀ x y : String, cleanPhoneNumber x = .ok y → cleanPhoneNumber y = .ok y) ∧
    cleanPhoneNumber "8318090007" = .ok "8318090007" ∧
    cleanPhoneNumber "+91 83180 90007" = .ok "8318090007" ∧
    cleanPhoneNumber "+91-83180-90007" = .ok "8318090007" :=
  ⟨cleanPhoneNumber_idempotent, rfl, rfl, rfl⟩

theorem claim_C2_witness :
    cleanPhoneNumber "8318090007" = .ok "8318090007" :=
  claim_C2_normalization_idempotent_and_format_invariant.1
    "+91 83180 90007" "8318090007" rfl

/-- C3: `cleanPhoneNumber` follows exactly the specified algorithm — strip
every non-digit, fail when no digit remains, strip a known country code by
the priority pairs or right-truncate to the last 10 digits, and then
succeed if and only if exactly 10 digits remain whose first digit lies in
`{6, 7, 8, 9}`, failing with a human-readable error otherwise; in
particular `"12345"` fails and the 10-digit `"5318090007"` fails. -/
theorem claim_C3_clean_phone_number_algorithm :
    (∀ l : List Char, stripCountryCode l = stripCountryCodeSpec l) ∧
    (∀ x : String, stripNonDigits x = [] →
      cleanPhoneNumber x = .error "no digits found in phone number") ∧
    (∀ x : String, (∃ y, cleanPhoneNumber x = .ok y) ↔
      stripNonDigits x ≠ [] ∧ (canonicalDigits x).length = 10 ∧
      (canonicalDigits x).all Char.isDigit = true ∧
      leadingDigitOk (canonicalDigits x) = true) ∧
    (∀ x y : String, cleanPhoneNumber x = .ok y →
      y = String.mk (canonicalDigits x)) ∧
    (∀ x : String, (∀ y, cleanPhoneNumber x ≠ .ok y) →
      ∃ msg, cleanPhoneNumber x = .error msg) ∧
    cleanPhoneNumber "12345" =
      .error "invalid phone number length: 5 digits (expected 10)" ∧
    cleanPhoneNumber "5318090007" = .error "invalid mobile number format" := by
  refine ⟨stripCountryCode_eq_spec, ?_, cleanPhoneNumber_ok_iff,
    cleanPhoneNumber_ok_val, ?_, rfl, rfl⟩
  · intro x h
    simp [cleanPhoneNumber, h]
  · intro x h
    cases heq : cleanPhoneNumber x with
    | error e => exact ⟨e, rfl⟩
    | ok a => exact absurd heq (h a)

theorem claim_C3_witness :
    cleanPhoneNumber "" = .error "no digits found in phone number" ∧
    "8318090007" = String.mk (canonicalDigits "+918318090007") :=
  ⟨claim_C3_clean_phone_number_algorithm.2.1 "" rfl,
   claim_C3_clean_phone_number_algorithm.2.2.2.1 "+918318090007" "8318090007" rfl⟩

/-! ## Upstream client (`DigitapClient.LookupMobileName`, src/main.go) -/

/-- A parsed upstream response: the `status`, `message` and
`result.mobile_linked_name` fields of the provider's JSON body. -/
structure MobileNameLookupResponse where
  status : String
  message : String
  mobileLinkedName : String
  deriving Repr, DecidableEq

/-- What one HTTP attempt of `LookupMobileName` can observe: a connection
failure from `HTTPClient.Do`, a body-read failure from `ReadAll`, or a
received body that either parses to a response or fails `json.Unmarshal`. -/
inductive AttemptResult where
  | connFail
  | readFail
  | received (parsed : Option MobileNameLookupResponse)
  deriving Repr, DecidableEq

/-- Result of `LookupMobileName`: a parsed response, the immediate
parse-failure error, or the all-retries-exhausted error. -/
inductive UpstreamResult where
  | ok (r : MobileNameLookupResponse)
  | parseFail
  | exhausted
  deriving Repr, DecidableEq

/-- Trace of one `LookupMobileName` call: its result, how many attempts
were issued, and the seconds slept between attempts, in order. -/
structure UpstreamTrace where
  result : UpstreamResult
  attempts : Nat
  sleeps : List Nat
  deriving Repr, DecidableEq

/-- The retry loop of `LookupMobileName`, run over the given 0-based
attempt indices: a transport-level failure (connection or body read) sleeps
`attempt + 1` seconds and continues; a received body returns immediately,
as a parsed response or a parse error. -/
def lookupFrom (oracle : Nat → AttemptResult) : List Nat → UpstreamTrace
  | [] => ⟨.exhausted, 0, []⟩
  | a :: rest =>
    match oracle a with
    | .connFail =>
      let t := lookupFrom oracle rest
      ⟨t.result, t.attempts + 1, (a + 1) :: t.sleeps⟩
    | .readFail =>
      let t := lookupFrom oracle rest
      ⟨t.result, t.attempts + 1, (a + 1) :: t.sleeps⟩
    | .received none => ⟨.parseFail, 1, []⟩
    | .received (some r) => ⟨.ok r, 1, []⟩

/-- `maxRetries` in `LookupMobileName`. -/
def maxRetries : Nat := 3

/-- Shallow embedding of `LookupMobileName`: at most `maxRetries` attempts,
indexed 0, 1, 2. -/
def lookupMobileName (oracle : Nat → AttemptResult) : UpstreamTrace :=
  lookupFrom oracle (List.range maxRetries)

/-- Whether an attempt observation is a transport-level failure. -/
def AttemptResult.isTransportFail : AttemptResult → Bool
  | .connFail => true
  | .readFail => true
  | .received _ => false

theorem lookupFrom_attempts_le (oracle : Nat → AttemptResult) (l : List Nat) :
    (lookupFrom oracle l).attempts ≤ l.length := by
  induction l with
  | nil => simp [lookupFrom]
  | cons a rest ih =>
    simp only [lookupFrom, List.length_cons]
    cases oracle a with
    | connFail => simpa using ih
    | readFail => simpa using ih
    | received p => cases p <;> simp

theorem lookupFrom_all_transport (oracle : Nat → AttemptResult) (l : List Nat)
    (h : ∀ a ∈ l, (oracle a).isTransportFail = true) :
    lookupFrom oracle l = ⟨.exhausted, l.length, l.map (· + 1)⟩ := by
  induction l with
  | nil => rfl
  | cons a rest ih =>
    have ha := h a (by simp)
    have hrest : ∀ b ∈ rest, (oracle b).isTransportFail = true :=
      fun b hb => h b (List.mem_cons_of_mem _ hb)
    simp only [lookupFrom]
    cases hoa : oracle a with
    | connFail => simp [ih hrest]
    | readFail => simp [ih hrest]
    | received p => rw [hoa] at ha; cases ha

theorem lookupFrom_cons_transport (oracle : Nat → AttemptResult) (a : Nat)
    (rest : List Nat) (h : (oracle a).isTransportFail = true) :
    lookupFrom oracle (a :: rest) =
      ⟨(lookupFrom oracle rest).result, (lookupFrom oracle rest).attempts + 1,
        (a + 1) :: (lookupFrom oracle rest).sleeps⟩ := by
  simp only [lookupFrom]
  cases hoa : oracle a with
  | connFail => rfl
  | readFail => rfl
  | received p => rw [hoa] at h; cases h

theorem lookupFrom_cons_parseFail (oracle : Nat → AttemptResult) (a : Nat)
    (rest : List Nat) (h : oracle a = .received none) :
    lookupFrom oracle (a :: rest) = ⟨.parseFail, 1, []⟩ := by
  simp [lookupFrom, h]

theorem lookupFrom_cons_ok (oracle : Nat → AttemptResult) (a : Nat)
    (rest : List Nat) (r : MobileNameLookupResponse)
    (h : oracle a = .received (some r)) :
    lookupFrom oracle (a :: rest) = ⟨.ok r, 1, []⟩ := by
  simp [lookupFrom, h]

/-- C4: the upstream lookup makes at most 3 attempts; it retries, with
linear backoff of attempt-number seconds, only on transport-level failure;
a received-but-unparseable response returns an error immediately with no
further attempt; three transport failures yield the exhausted error; and
two transport failures followed by a parseable response succeed. -/
theorem claim_C4_upstream_retry_behavior :
    (∀ oracle : Nat → AttemptResult, (lookupMobileName oracle).attempts ≤ 3) ∧
    (∀ oracle : Nat → AttemptResult,
      (∀ k < 3, (oracle k).isTransportFail = true) →
      lookupMobileName oracle = ⟨.exhausted, 3, [1, 2, 3]⟩) ∧
    (∀ (oracle : Nat → AttemptResult) (r : MobileNameLookupResponse),
      (oracle 0).isTransportFail = true → (oracle 1).isTransportFail = true →
      oracle 2 = .received (some r) →
      lookupMobileName oracle = ⟨.ok r, 3, [1, 2]⟩) ∧
    (∀ (oracle : Nat → AttemptResult) (k : Nat), k < 3 →
      (∀ j < k, (oracle j).isTransportFail = true) →
      oracle k = .received none →
      (lookupMobileName oracle).result = .parseFail ∧
      (lookupMobileName oracle).attempts = k + 1) := by
  have hrange : List.range maxRetries = [0, 1, 2] := rfl
  refine ⟨?_, ?_, ?_, ?_⟩
  · intro oracle
    have h := lookupFrom_attempts_le oracle (List.range maxRetries)
    simpa [lookupMobileName] using h
  · intro oracle h
    rw [lookupMobileName, lookupFrom_all_transport oracle _ ?_]
    · rfl
    · intro a ha
      exact h a (List.mem_range.mp ha)
  · intro oracle r h0 h1 h2
    rw [lookupMobileName, hrange,
      lookupFrom_cons_transport oracle 0 _ h0,
      lookupFrom_cons_transport oracle 1 _ h1,
      lookupFrom_cons_ok oracle 2 _ r h2]
  · intro oracle k hk hbefore hparse
    rw [lookupMobileName, hrange]
    interval_cases k
    · rw [lookupFrom_cons_parseFail oracle 0 _ hparse]
      exact ⟨rfl, rfl⟩
    · rw [lookupFrom_cons_transport oracle 0 _ (hbefore 0 (by omega)),
        lookupFrom_cons_parseFail oracle 1 _ hparse]
      exact ⟨rfl, rfl⟩
    · rw [lookupFrom_cons_transport oracle 0 _ (hbefore 0 (by omega)),
        lookupFrom_cons_transport oracle 1 _ (hbefore 1 (by omega)),
        lookupFrom_cons_parseFail oracle 2 _ hparse]
      exact ⟨rfl, rfl⟩

theorem claim_C4_witness :
    lookupMobileName (fun k => if k < 2 then .connFail
      else .received (some ⟨"success", "ok", "Bob"⟩)) =
      ⟨.ok ⟨"success", "ok", "Bob"⟩, 3, [1, 2]⟩ :=
  claim_C4_upstream_retry_behavior.2.2.1 _ ⟨"success", "ok", "Bob"⟩
    rfl rfl rfl

/-! ## Per-IP rate limiter (`IPRateLimiter`, src/main.go) -/

/-- Insert-or-replace on an association list keyed by strings. -/
def assocUpsert {β : Type} : List (String × β) → String → β → List (String × β)
  | [], k, v => [(k, v)]
  | (k', v') :: rest, k, v =>
    if k' = k then (k, v) :: rest else (k', v') :: assocUpsert rest k v

theorem lookup_assocUpsert_self {β : Type} (l : List (String × β)) (k : String)
    (v : β) : List.lookup k (assocUpsert l k v) = some v := by
  induction l with
  | nil => simp [assocUpsert, List.lookup]
  | cons p rest ih =>
    obtain ⟨k', v'⟩ := p
    by_cases h : k' = k
    · simp [assocUpsert, h, List.lookup]
    · have hbe : (k == k') = false :=
        beq_eq_false_iff_ne.mpr (fun he => h he.symm)
      simp [assocUpsert, if_neg h, List.lookup, hbe, ih]

theorem lookup_assocUpsert_ne {β : Type} (l : List (String × β)) (k k' : String)
    (v : β) (h : k' ≠ k) :
    List.lookup k' (assocUpsert l k v) = List.lookup k' l := by
  have hbe : (k' == k) = false := beq_eq_false_iff_ne.mpr h
  induction l with
  | nil => simp [assocUpsert, List.lookup, hbe]
  | cons p rest ih =>
    obtain ⟨k₀, v₀⟩ := p
    by_cases h0 : k₀ = k
    · subst h0
      simp [assocUpsert, List.lookup, hbe]
    · simp only [assocUpsert, if_neg h0, List.lookup]
      cases hb0 : (k' == k₀) <;> simp [hb0, ih]

theorem mem_assocUpsert {β : Type} (l : List (String × β)) (k : String) (v : β)
    (p : String × β) (h : p ∈ assocUpsert l k v) : p ∈ l ∨ p = (k, v) := by
  induction l with
  | nil => simpa [assocUpsert] using h
  | cons q rest ih =>
    obtain ⟨k₀, v₀⟩ := q
    by_cases h0 : k₀ = k
    · simp only [assocUpsert, if_pos h0] at h
      rcases List.mem_cons.mp h with h | h
      · exact Or.inr h
      · exact Or.inl (List.mem_cons_of_mem _ h)
    · simp only [assocUpsert, if_neg h0] at h
      rcases List.mem_cons.mp h with h | h
      · exact Or.inl (by simp [h])
      · rcases ih h with h | h
        · exact Or.inl (List.mem_cons_of_mem _ h)
        · exact Or.inr h

/-- Modelled from the spec: the token-bucket state of one client's
`rate.Limiter` from `golang.org/x/time/rate` — external library code not
part of this repository.  The specification describes it as a classic
token bucket with a fixed refill rate and burst capacity. -/
structure Bucket where
  tokens : ℚ
  last : ℚ
  deriving DecidableEq, Repr

/-- Modelled from the spec: one admission check (`limiter.Allow()`).  The
token count is advanced by the elapsed time times the refill rate, capped
at the burst capacity; the request is admitted exactly when a full token is
available, consuming it. -/
def Bucket.allow (b : Bucket) (burst : Nat) (rateLim : ℚ) (t : ℚ) :
    Bool × Bucket :=
  let tok := min (burst : ℚ) (b.tokens + (t - b.last) * rateLim)
  if 1 ≤ tok then (true, ⟨tok - 1, t⟩) else (false, ⟨tok, t⟩)

/-- The `IPRateLimiter` of src/main.go: one bucket per client address,
created on demand, with a shared refill rate and burst capacity. -/
structure IPRateLimiter where
  ips : List (String × Bucket)
  rateLim : ℚ
  burst : Nat

/-- `NewIPRateLimiter`: an empty bucket map with the given parameters. -/
def NewIPRateLimiter (r : ℚ) (b : Nat) : IPRateLimiter := ⟨[], r, b⟩

/-- `GetLimiter`/`AddIP`: the bucket for `ip`, created full (at `burst`
tokens, per `rate.NewLimiter`) at the current time when absent. -/
def IPRateLimiter.getBucket (L : IPRateLimiter) (ip : String) (t : ℚ) :
    Bucket :=
  match List.lookup ip L.ips with
  | some b => b
  | none => ⟨(L.burst : ℚ), t⟩

/-- The admission check of `rateLimitMiddleware`:
`limiter.GetLimiter(ip).Allow()`, with the mutated bucket stored back. -/
def IPRateLimiter.allowIP (L : IPRateLimiter) (ip : String) (t : ℚ) :
    Bool × IPRateLimiter :=
  let res := (L.getBucket ip t).allow L.burst L.rateLim t
  (res.1, ⟨assocUpsert L.ips ip res.2, L.rateLim, L.burst⟩)

/-- Repeated admission checks for one client at the given instants. -/
def admitSeq (L : IPRateLimiter) (ip : String) : List ℚ → List Bool × IPRateLimiter
  | [] => ([], L)
  | t :: ts =>
    let res := L.allowIP ip t
    let rest := admitSeq res.2 ip ts
    (res.1 :: rest.1, rest.2)

/-- The limiter constructed in `main`:
`NewIPRateLimiter(rate.Every(12*time.Second), 5)`, i.e. one token every 12
seconds with burst 5. -/
def mainLimiter : IPRateLimiter := NewIPRateLimiter (1 / 12) 5

theorem allow_instant (j burst : Nat) (r t0 : ℚ) (hj : j ≤ burst) :
    Bucket.allow ⟨(j : ℚ), t0⟩ burst r t0 =
      if 1 ≤ j then (true, ⟨((j - 1 : Nat) : ℚ), t0⟩)
      else (false, ⟨(j : ℚ), t0⟩) := by
  simp only [Bucket.allow, sub_self, zero_mul, add_zero,
    min_eq_right (by exact_mod_cast hj : (j : ℚ) ≤ (burst : ℚ))]
  by_cases h1 : 1 ≤ j
  · rw [if_pos (by exact_mod_cast h1), if_pos h1]
    congr 2
    push_cast [h1]
    ring
  · rw [if_neg (by exact_mod_cast h1), if_neg h1]

theorem getBucket_upsert (l : List (String × Bucket)) (r : ℚ) (bu : Nat)
    (ip : String) (b : Bucket) (t : ℚ) :
    IPRateLimiter.getBucket ⟨assocUpsert l ip b, r, bu⟩ ip t = b := by
  simp [IPRateLimiter.getBucket, lookup_assocUpsert_self]

theorem allowIP_instant (L : IPRateLimiter) (ip : String) (j : Nat)
    (hj : j ≤ L.burst) (hb : L.getBucket ip 0 = ⟨(j : ℚ), 0⟩) :
    L.allowIP ip 0 =
      if 1 ≤ j then
        (true, ⟨assocUpsert L.ips ip ⟨((j - 1 : Nat) : ℚ), 0⟩, L.rateLim, L.burst⟩)
      else
        (false, ⟨assocUpsert L.ips ip ⟨(j : ℚ), 0⟩, L.rateLim, L.burst⟩) := by
  simp only [IPRateLimiter.allowIP, hb, allow_instant j L.burst L.rateLim 0 hj]
  by_cases h1 : 1 ≤ j <;> simp [h1]

/-- Instant admission runs: a bucket holding `j` whole tokens at time 0
admits exactly `j` of `n` immediate requests, in order, and ends with
`j - n` tokens. -/
theorem admitSeq_instant (ip : String) (n : Nat) :
    ∀ (L : IPRateLimiter) (j : Nat), j ≤ L.burst →
    L.getBucket ip 0 = ⟨(j : ℚ), 0⟩ →
    (admitSeq L ip (List.replicate n 0)).1 =
      List.replicate (min n j) true ++ List.replicate (n - j) false ∧
    (admitSeq L ip (List.replicate n 0)).2.getBucket ip 0 =
      ⟨((j - n : Nat) : ℚ), 0⟩ ∧
    (1 ≤ n → List.lookup ip (admitSeq L ip (List.replicate n 0)).2.ips =
      some ⟨((j - n : Nat) : ℚ), 0⟩) ∧
    (admitSeq L ip (List.replicate n 0)).2.rateLim = L.rateLim ∧
    (admitSeq L ip (List.replicate n 0)).2.burst = L.burst := by
  induction n with
  | zero =>
    intro L j hj hb
    refine ⟨by simp [admitSeq], by simpa using hb,
      fun h => absurd h (by omega), rfl, rfl⟩
  | succ n ih =>
    intro L j hj hb
    rw [List.replicate_succ]
    simp only [admitSeq]
    rw [allowIP_instant L ip j hj hb]
    by_cases h1 : 1 ≤ j
    · rw [if_pos h1]
      have hb1 : IPRateLimiter.getBucket
          ⟨assocUpsert L.ips ip ⟨((j - 1 : Nat) : ℚ), 0⟩, L.rateLim, L.burst⟩
          ip 0 = ⟨((j - 1 : Nat) : ℚ), 0⟩ := getBucket_upsert _ _ _ _ _ _
      have hj1 : j - 1 ≤ (⟨assocUpsert L.ips ip ⟨((j - 1 : Nat) : ℚ), 0⟩,
          L.rateLim, L.burst⟩ : IPRateLimiter).burst := by
        simpa using by omega
      obtain ⟨ihl, ihb, ihlk, ihr, ihbu⟩ := ih _ (j - 1) hj1 hb1
      refine ⟨?_, ?_, ?_, ihr, ihbu⟩
      · simp only [ihl]
        have h2 : min (n + 1) j = min n (j - 1) + 1 := by omega
        have h3 : n + 1 - j = n - (j - 1) := by omega
        rw [h2, h3, List.replicate_succ, List.cons_append]
      · have h4 : j - (n + 1) = (j - 1) - n := by omega
        rw [h4]
        exact ihb
      · intro _
        have h4 : j - (n + 1) = (j - 1) - n := by omega
        rw [h4]
        rcases Nat.eq_zero_or_pos n with hn | hn
        · subst hn
          simpa [admitSeq] using lookup_assocUpsert_self L.ips ip _
        · exact ihlk hn
    · rw [if_neg h1]
      have hj0 : j = 0 := by omega
      subst hj0
      have hb1 : IPRateLimiter.getBucket
          ⟨assocUpsert L.ips ip ⟨((0 : Nat) : ℚ), 0⟩, L.rateLim, L.burst⟩
          ip 0 = ⟨((0 : Nat) : ℚ), 0⟩ := getBucket_upsert _ _ _ _ _ _
      have hj1 : 0 ≤ (⟨assocUpsert L.ips ip ⟨((0 : Nat) : ℚ), 0⟩,
          L.rateLim, L.burst⟩ : IPRateLimiter).burst := by omega
      obtain ⟨ihl, ihb, ihlk, ihr, ihbu⟩ := ih _ 0 hj1 (by simpa using hb1)
      refine ⟨?_, by simpa using ihb, ?_, ihr, ihbu⟩
      · simp only [ihl]
        simp [List.replicate_succ]
      · intro _
        rcases Nat.eq_zero_or_pos n with hn | hn
        · subst hn
          simpa [admitSeq] using lookup_assocUpsert_self L.ips ip _
        · simpa using ihlk hn

theorem admitSeq_append (L : IPRateLimiter) (ip : String) (l1 l2 : List ℚ) :
    admitSeq L ip (l1 ++ l2) =
      ((admitSeq L ip l1).1 ++ (admitSeq (admitSeq L ip l1).2 ip l2).1,
       (admitSeq (admitSeq L ip l1).2 ip l2).2) := by
  induction l1 generalizing L with
  | nil => simp [admitSeq]
  | cons t ts ih => simp [admitSeq, ih]

/-- C8: with the parameters `main` passes to `NewIPRateLimiter` — refill
`rate.Every(12s)`, i.e. 1/12 token per second, burst 5 — a fresh client
identifier is admitted exactly 5 times instantly, denied on every further
instant request, and admitted exactly once more after one 12-second refill
interval has elapsed. -/
theorem claim_C8_token_bucket_burst_and_refill :
    mainLimiter.rateLim = 1 / 12 ∧ mainLimiter.burst = 5 ∧
    (∀ (L : IPRateLimiter) (ip : String) (n : Nat),
      L.rateLim = 1 / 12 → L.burst = 5 → List.lookup ip L.ips = none →
      (admitSeq L ip (List.replicate n 0)).1 =
        List.replicate (min n 5) true ++ List.replicate (n - 5) false) ∧
    (∀ (L : IPRateLimiter) (ip : String),
      L.rateLim = 1 / 12 → L.burst = 5 → List.lookup ip L.ips = none →
      (admitSeq L ip (List.replicate 5 0 ++ [12, 12])).1 =
        List.replicate 5 true ++ [true, false]) := by
  refine ⟨rfl, rfl, ?_, ?_⟩
  · intro L ip n hr hb hnone
    have hgb : L.getBucket ip 0 = ⟨((5 : Nat) : ℚ), 0⟩ := by
      simp [IPRateLimiter.getBucket, hnone, hb]
    exact (admitSeq_instant ip n L 5 (by omega) hgb).1
  · intro L ip hr hb hnone
    have hgb : L.getBucket ip 0 = ⟨((5 : Nat) : ℚ), 0⟩ := by
      simp [IPRateLimiter.getBucket, hnone, hb]
    obtain ⟨h1, _, hlk, hrr, hbb⟩ := admitSeq_instant ip 5 L 5 (by omega) hgb
    have hlk5 := hlk (by omega)
    rw [admitSeq_append, h1]
    have hget1 : (admitSeq L ip (List.replicate 5 0)).2.getBucket ip 12 =
        ⟨0, 0⟩ := by
      simp only [IPRateLimiter.getBucket, hlk5]
      norm_num
    have hadm1 : (admitSeq L ip (List.replicate 5 0)).2.allowIP ip 12 =
        (true, ⟨assocUpsert (admitSeq L ip (List.replicate 5 0)).2.ips ip
          ⟨0, 12⟩, 1 / 12, 5⟩) := by
      simp only [IPRateLimiter.allowIP, hget1, hrr, hbb, hr, hb, Bucket.allow]
      norm_num
    have hget2 : IPRateLimiter.getBucket
        ⟨assocUpsert (admitSeq L ip (List.replicate 5 0)).2.ips ip ⟨0, 12⟩,
          1 / 12, 5⟩ ip 12 = ⟨0, 12⟩ := getBucket_upsert _ _ _ _ _ _
    have hadm2 : IPRateLimiter.allowIP
        ⟨assocUpsert (admitSeq L ip (List.replicate 5 0)).2.ips ip ⟨0, 12⟩,
          1 / 12, 5⟩ ip 12 = (false, ⟨assocUpsert (assocUpsert
            (admitSeq L ip (List.replicate 5 0)).2.ips ip ⟨0, 12⟩) ip
            ⟨0, 12⟩, 1 / 12, 5⟩) := by
      simp only [IPRateLimiter.allowIP, hget2, Bucket.allow]
      norm_num
    have htwo : ∀ (S : IPRateLimiter) (t1 t2 : ℚ),
        (admitSeq S ip [t1, t2]).1 =
          [(S.allowIP ip t1).1, ((S.allowIP ip t1).2.allowIP ip t2).1] :=
      fun S t1 t2 => rfl
    rw [htwo, hadm1, hadm2]
    norm_num

theorem claim_C8_witness :
    (admitSeq mainLimiter "1.2.3.4" (List.replicate 6 0)).1 =
      [true, true, true, true, true, false] := by
  have h := claim_C8_token_bucket_burst_and_refill.2.2.1 mainLimiter
    "1.2.3.4" 6 rfl rfl rfl
  simpa using h

/-! ## HTTP surface and lookup orchestration (`main`, src/main.go) -/

/-- Request methods distinguished by the handlers; `other` stands for any
method besides GET and POST. -/
inductive Method where
  | get
  | post
  | other
  deriving DecidableEq, Repr

/-- An inbound HTTP request as the handlers observe it: remote address,
arrival time, method, path, the `mobile` form value (empty string when the
field is absent, as `FormValue` reports it) and whether `ParseForm`
fails. -/
structure Request where
  ip : String
  time : ℚ
  method : Method
  path : String
  mobileField : String
  formParseFails : Bool

/-- Per-request behavior of the external world: whether the store read
fails, whether the store write fails, and what each upstream HTTP attempt
observes. -/
structure RequestEnv where
  readFails : Bool
  writeFails : Bool
  upstream : Nat → AttemptResult

/-- The `mobile_records` table as a key-value map from canonical number to
name. -/
abbrev Store := List (String × String)

/-- `GetMobileRecord`: the stored name for a canonical number, `none` when
the key is absent. -/
def getMobileRecord (s : Store) (m : String) : Option String :=
  List.lookup m s

/-- `SaveMobileRecord`: `INSERT ... ON DUPLICATE KEY UPDATE`, an atomic
insert-or-replace keyed on the mobile number. -/
def saveMobileRecord (s : Store) (m name : String) : Store :=
  assocUpsert s m name

/-- The distinct responses the handlers in src/main.go can produce. -/
inductive HttpResponse where
  | rateLimited
  | notFoundPage
  | methodNotAllowed
  | formPage
  | redirectHome
  | badFormData
  | missingMobile
  | invalidNumber (msg : String)
  | dbError
  | cachedRecord (mobile name : String)
  | serviceUnavailable
  | apiResult (r : MobileNameLookupResponse)
  deriving DecidableEq, Repr

/-- Observable side effects of one request on the Record Store and the
Upstream Client. -/
inductive Effect where
  | storeRead (m : String)
  | upstreamCall (m : String)
  | storeWrite (m name : String)
  deriving DecidableEq, Repr

/-- Process state shared across requests: the rate limiter's bucket map
and the Record Store contents. -/
structure ServerState where
  limiter : IPRateLimiter
  store : Store

/-- Outcome of serving one request. -/
structure StepResult where
  response : HttpResponse
  state : ServerState
  effects : List Effect

/-- The root handler of `main`: 404 for non-root paths, 405 for non-GET,
otherwise the empty form page. -/
def handleRoot (req : Request) : HttpResponse :=
  if req.path ≠ "/" then .notFoundPage
  else if req.method ≠ .get then .methodNotAllowed
  else .formPage

/-- The POST branch of the `/lookup` handler: parse the form, require a
`mobile` value, normalize it, consult the Record Store, on a miss call the
upstream client, persist a non-empty resolved name (a failed save is only
logged), and respond. -/
def handleLookupPost (store : Store) (req : Request) (env : RequestEnv) :
    HttpResponse × Store × List Effect :=
  if req.formParseFails then (.badFormData, store, [])
  else if req.mobileField = "" then (.missingMobile, store, [])
  else
    match cleanPhoneNumber req.mobileField with
    | .error e => (.invalidNumber ("Invalid mobile number: " ++ e), store, [])
    | .ok mobile =>
      if env.readFails then (.dbError, store, [.storeRead mobile])
      else
        match getMobileRecord store mobile with
        | some name => (.cachedRecord mobile name, store, [.storeRead mobile])
        | none =>
          match (lookupMobileName env.upstream).result with
          | .exhausted =>
            (.serviceUnavailable, store, [.storeRead mobile, .upstreamCall mobile])
          | .parseFail =>
            (.serviceUnavailable, store, [.storeRead mobile, .upstreamCall mobile])
          | .ok resp =>
            if resp.mobileLinkedName ≠ "" then
              (.apiResult resp,
               (if env.writeFails then store
                else saveMobileRecord store mobile resp.mobileLinkedName),
               [.storeRead mobile, .upstreamCall mobile,
                .storeWrite mobile resp.mobileLinkedName])
            else
              (.apiResult resp, store, [.storeRead mobile, .upstreamCall mobile])

/-- The `/lookup` handler: GET redirects home, POST performs the lookup,
anything else is 405. -/
def handleLookup (store : Store) (req : Request) (env : RequestEnv) :
    HttpResponse × Store × List Effect :=
  match req.method with
  | .get => (.redirectHome, store, [])
  | .post => handleLookupPost store req env
  | .other => (.methodNotAllowed, store, [])

/-- One request through the server: `rateLimitMiddleware` first — both
registered handlers are wrapped with the same `limiter` — then dispatch by
path, `/lookup` to the lookup handler and everything else to the root
handler. -/
def serve (st : ServerState) (req : Request) (env : RequestEnv) : StepResult :=
  let res := st.limiter.allowIP req.ip req.time
  if res.1 then
    if req.path = "/lookup" then
      let out := handleLookup st.store req env
      ⟨out.1, ⟨res.2, out.2.1⟩, out.2.2⟩
    else
      ⟨handleRoot req, ⟨res.2, st.store⟩, []⟩
  else
    ⟨.rateLimited, ⟨res.2, st.store⟩, []⟩

/-- Serving a sequence of requests, threading the server state. -/
def serveSeq (st : ServerState) :
    List (Request × RequestEnv) → List HttpResponse × ServerState
  | [] => ([], st)
  | (req, env) :: rest =>
    let out := serve st req env
    let tail := serveSeq out.state rest
    (out.response :: tail.1, tail.2)

/-- C1: when the Record Store already holds a record for the canonical
number of an admitted, normalized lookup request, the handler responds
with the cached record, the store is unchanged, the only effect is the
store read — and the Upstream Client is never invoked. -/
theorem claim_C1_cache_hit_never_calls_upstream
    (st : ServerState) (req : Request) (env : RequestEnv)
    (mobile name : String)
    (hpath : req.path = "/lookup") (hmethod : req.method = .post)
    (hform : req.formParseFails = false)
    (hallow : (st.limiter.allowIP req.ip req.time).1 = true)
    (hclean : cleanPhoneNumber req.mobileField = .ok mobile)
    (hread : env.readFails = false)
    (hcache : getMobileRecord st.store mobile = some name) :
    (serve st req env).response = .cachedRecord mobile name ∧
    (serve st req env).state.store = st.store ∧
    (serve st req env).effects = [.storeRead mobile] ∧
    ∀ m, Effect.upstreamCall m ∉ (serve st req env).effects := by
  have hmob : req.mobileField ≠ "" := by
    intro h
    rw [h, show cleanPhoneNumber "" =
      Except.error "no digits found in phone number" from rfl] at hclean
    cases hclean
  simp [serve, hallow, hpath, handleLookup, hmethod, handleLookupPost,
    hform, hmob, hclean, hread, hcache]

theorem mainLimiter_allow_fresh (ip : String) :
    (mainLimiter.allowIP ip 0).1 = true := by
  rw [allowIP_instant mainLimiter ip 5 (by norm_num [mainLimiter,
    NewIPRateLimiter]) rfl]
  norm_num

theorem claim_C1_witness :
    (serve ⟨mainLimiter, [("9876543210", "Alice")]⟩
        ⟨"1.2.3.4", 0, .post, "/lookup", "9876543210", false⟩
        ⟨false, false, fun _ => .connFail⟩).response =
      .cachedRecord "9876543210" "Alice" :=
  (claim_C1_cache_hit_never_calls_upstream
    ⟨mainLimiter, [("9876543210", "Alice")]⟩
    ⟨"1.2.3.4", 0, .post, "/lookup", "9876543210", false⟩
    ⟨false, false, fun _ => .connFail⟩
    "9876543210" "Alice" rfl rfl rfl (mainLimiter_allow_fresh "1.2.3.4")
    rfl rfl rfl).1

/-- C5: on a cache miss where the upstream call succeeds with a non-empty
linked name, the handler issues the store upsert with that name and
responds with the resolved name regardless of whether the upsert
succeeds — a write failure leaves the store unchanged but never turns the
response into an error. -/
theorem claim_C5_write_failure_never_blocks_response
    (st : ServerState) (req : Request) (env : RequestEnv)
    (mobile : String) (resp : MobileNameLookupResponse)
    (hpath : req.path = "/lookup") (hmethod : req.method = .post)
    (hform : req.formParseFails = false)
    (hallow : (st.limiter.allowIP req.ip req.time).1 = true)
    (hclean : cleanPhoneNumber req.mobileField = .ok mobile)
    (hread : env.readFails = false)
    (hcache : getMobileRecord st.store mobile = none)
    (hup : (lookupMobileName env.upstream).result = .ok resp)
    (hname : resp.mobileLinkedName ≠ "") :
    (serve st req env).response = .apiResult resp ∧
    Effect.storeWrite mobile resp.mobileLinkedName ∈ (serve st req env).effects ∧
    (env.writeFails = true → (serve st req env).state.store = st.store) ∧
    (env.writeFails = false → (serve st req env).state.store =
      saveMobileRecord st.store mobile resp.mobileLinkedName) := by
  have hmob : req.mobileField ≠ "" := by
    intro h
    rw [h, show cleanPhoneNumber "" =
      Except.error "no digits found in phone number" from rfl] at hclean
    cases hclean
  simp only [serve, hallow, if_true, hpath, if_pos rfl, handleLookup,
    hmethod, handleLookupPost, hform, Bool.false_eq_true, if_false,
    if_neg hmob, hclean, hread, hcache, hup, if_pos hname]
  exact ⟨by simp, by simp, fun hw => by simp [hw], fun hw => by simp [hw]⟩

theorem claim_C5_witness :
    (serve ⟨mainLimiter, []⟩
        ⟨"1.2.3.4", 0, .post, "/lookup", "9876543210", false⟩
        ⟨false, true, fun _ => .received (some ⟨"success", "ok", "Bob"⟩)⟩).response =
      .apiResult ⟨"success", "ok", "Bob"⟩ :=
  (claim_C5_write_failure_never_blocks_response
    ⟨mainLimiter, []⟩
    ⟨"1.2.3.4", 0, .post, "/lookup", "9876543210", false⟩
    ⟨false, true, fun _ => .received (some ⟨"success", "ok", "Bob"⟩)⟩
    "9876543210" ⟨"success", "ok", "Bob"⟩
    rfl rfl rfl (mainLimiter_allow_fresh "1.2.3.4") rfl rfl rfl rfl
    (by simp)).1

/-- C7: a request denied by the rate limiter is answered with the
429-style rate-limit response, and neither the Record Store nor the
Upstream Client is touched: the store is unchanged and no effect at all is
produced. -/
theorem claim_C7_denied_request_touches_nothing
    (st : ServerState) (req : Request) (env : RequestEnv)
    (hdeny : (st.limiter.allowIP req.ip req.time).1 = false) :
    (serve st req env).response = .rateLimited ∧
    (serve st req env).state.store = st.store ∧
    (serve st req env).effects = [] := by
  simp [serve, hdeny]

theorem claim_C7_witness :
    (serve ⟨⟨[("1.2.3.4", ⟨((0 : Nat) : ℚ), 0⟩)], 1 / 12, 5⟩,
        [("9876543210", "Alice")]⟩
        ⟨"1.2.3.4", 0, .post, "/lookup", "9876543210", false⟩
        ⟨false, false, fun _ => .connFail⟩).response = .rateLimited := by
  refine (claim_C7_denied_request_touches_nothing _ _ _ ?_).1
  rw [allowIP_instant ⟨[("1.2.3.4", ⟨((0 : Nat) : ℚ), 0⟩)], 1 / 12, 5⟩
    "1.2.3.4" 0 (by norm_num) rfl]
  norm_num

/-! ## Store-name invariant (claim C9) -/

theorem mem_of_lookup_eq_some {β : Type} (l : List (String × β)) (k : String)
    (v : β) (h : List.lookup k l = some v) : (k, v) ∈ l := by
  induction l with
  | nil => cases h
  | cons p rest ih =>
    obtain ⟨k0, v0⟩ := p
    simp only [List.lookup] at h
    cases hbe : (k == k0) with
    | true =>
      rw [hbe] at h
      cases h
      have hk : k = k0 := eq_of_beq hbe
      rw [hk]
      exact List.mem_cons_self _ _
    | false =>
      rw [hbe] at h
      exact List.mem_cons_of_mem _ (ih h)

theorem handleLookupPost_store_change (store : Store) (req : Request)
    (env : RequestEnv) :
    (handleLookupPost store req env).2.1 = store ∨
    ∃ m n, n ≠ "" ∧
      (handleLookupPost store req env).2.1 = saveMobileRecord store m n := by
  unfold handleLookupPost
  repeat' split
  all_goals try exact Or.inl rfl
  all_goals rename_i hname hwrite
  all_goals exact Or.inr ⟨_, _, hname, rfl⟩

theorem serve_store_change (st : ServerState) (req : Request)
    (env : RequestEnv) :
    (serve st req env).state.store = st.store ∨
    ∃ m n, n ≠ "" ∧
      (serve st req env).state.store = saveMobileRecord st.store m n := by
  simp only [serve, handleLookup]
  split
  · split
    · split
      · exact Or.inl rfl
      · exact handleLookupPost_store_change st.store req env
      · exact Or.inl rfl
    · exact Or.inl rfl
  · exact Or.inl rfl

theorem handleLookupPost_write_nonempty (store : Store) (req : Request)
    (env : RequestEnv) (m n : String)
    (h : Effect.storeWrite m n ∈ (handleLookupPost store req env).2.2) :
    n ≠ "" := by
  revert h
  unfold handleLookupPost
  repeat' split
  all_goals intro h
  all_goals simp at h
  all_goals obtain ⟨h1, h2⟩ := h
  all_goals subst h2
  all_goals rename_i hname hwrite
  all_goals exact hname

theorem serve_write_nonempty (st : ServerState) (req : Request)
    (env : RequestEnv) (m n : String)
    (h : Effect.storeWrite m n ∈ (serve st req env).effects) : n ≠ "" := by
  revert h
  simp only [serve, handleLookup]
  split
  · split
    · split
      · intro h
        simp at h
      · exact fun h => handleLookupPost_write_nonempty st.store req env m n h
      · intro h
        simp at h
    · intro h
      simp at h
  · intro h
    simp at h

/-- Record Store states reachable by the service from an empty table,
under arbitrary requests and arbitrary external behavior. -/
inductive ReachableStore : Store → Prop where
  | init : ReachableStore []
  | step (L : IPRateLimiter) (s : Store) (req : Request) (env : RequestEnv) :
      ReachableStore s → ReachableStore (serve ⟨L, s⟩ req env).state.store

theorem reachable_names_nonempty (s : Store) (h : ReachableStore s) :
    ∀ p ∈ s, p.2 ≠ "" := by
  induction h with
  | init => simp
  | step L s req env hs ih =>
    intro p hp
    rcases serve_store_change ⟨L, s⟩ req env with heq | ⟨m, n, hn, heq⟩
    · rw [heq] at hp
      exact ih p hp
    · rw [heq] at hp
      rcases mem_assocUpsert _ _ _ _ hp with hmem | hmem
      · exact ih p hmem
      · rw [hmem]
        exact hn

/-- C9: the orchestrator only issues a store upsert with a non-empty
resolved name, so in every store state reachable from the empty table the
stored name of every key is non-empty. -/
theorem claim_C9_stored_names_nonempty :
    (∀ (st : ServerState) (req : Request) (env : RequestEnv) (m n : String),
      Effect.storeWrite m n ∈ (serve st req env).effects → n ≠ "") ∧
    (∀ s : Store, ReachableStore s → ∀ m n : String,
      getMobileRecord s m = some n → n ≠ "") := by
  refine ⟨serve_write_nonempty, ?_⟩
  intro s hs m n hlook
  exact reachable_names_nonempty s hs (m, n)
    (mem_of_lookup_eq_some s m n hlook)

theorem claim_C9_witness : "Bob" ≠ "" :=
  claim_C9_stored_names_nonempty.1 ⟨mainLimiter, []⟩
    ⟨"1.2.3.4", 0, .post, "/lookup", "9876543210", false⟩
    ⟨false, false, fun _ => .received (some ⟨"success", "ok", "Bob"⟩)⟩
    "9876543210" "Bob"
    (by simp [serve, mainLimiter_allow_fresh, handleLookup, handleLookupPost,
      show cleanPhoneNumber "9876543210" = .ok "9876543210" from rfl,
      getMobileRecord,
      show (lookupMobileName (fun _ => AttemptResult.received
        (some ⟨"success", "ok", "Bob"⟩))).result =
        UpstreamResult.ok ⟨"success", "ok", "Bob"⟩ from rfl])

/-! ## Durable-store connection (`NewDB`, src/db/db.go and
src/unnamed/part_001) -/

/-- The connection string hardcoded by `fmt.Sprintf` in src/db/db.go. -/
def hardcodedConnectionString : String :=
  "upnbsxg4yg4es1ic:jWLiq8tKZQPtyCoSTGyO@tcp(bakggowhgkephmh0ugod-mysql.services.clever-cloud.com:3306)/bakggowhgkephmh0ugod"

/-- `NewDB` from src/db/db.go, abstracted to the connection string handed
to `sql.Open`: it requires `DATABASE_URL` to be set (`os.Getenv` yields
the empty string when unset) but then opens the hardcoded connection
string, ignoring the configured value. -/
def NewDB (getenv : String → String) : Except String String :=
  if getenv "DATABASE_URL" = "" then
    .error "DATABASE_URL environment variable is required"
  else
    .ok hardcodedConnectionString

/-- `NewDB` from src/unnamed/part_001 (the variant of db/db.go in which
the hardcoded string is commented out): it opens exactly the configured
`DATABASE_URL` value. -/
def NewDB_part001 (getenv : String → String) : Except String String :=
  if getenv "DATABASE_URL" = "" then
    .error "DATABASE_URL environment variable is required"
  else
    .ok (getenv "DATABASE_URL")

/-- A sample configured connection string. -/
def exampleDSN : String := "user:secret@tcp(db.example.com:3306)/lookup"

/-- C6 divergence: both variants fail at startup when `DATABASE_URL` is
absent, but src/db/db.go then connects to its hardcoded clever-cloud
address no matter what `DATABASE_URL` holds — the configured value does
not determine the store — while the src/unnamed/part_001 variant uses the
configured value exactly. -/
theorem claim_C6_database_url_ignored :
    NewDB (fun _ => "") =
      .error "DATABASE_URL environment variable is required" ∧
    NewDB_part001 (fun _ => "") =
      .error "DATABASE_URL environment variable is required" ∧
    NewDB (fun k => if k = "DATABASE_URL" then exampleDSN else "") =
      .ok hardcodedConnectionString ∧
    hardcodedConnectionString ≠ exampleDSN ∧
    NewDB_part001 (fun k => if k = "DATABASE_URL" then exampleDSN else "") =
      .ok exampleDSN := by
  refine ⟨rfl, rfl, rfl, ?_, rfl⟩
  intro h
  have : hardcodedConnectionString.data = exampleDSN.data := by rw [h]
  simp [hardcodedConnectionString, exampleDSN] at this

/-! ## The root page and the lookup page share one rate limiter (claim C10) -/

theorem serve_limiter (st : ServerState) (req : Request) (env : RequestEnv) :
    (serve st req env).state.limiter =
      (st.limiter.allowIP req.ip req.time).2 := by
  simp only [serve, handleLookup]
  split
  · split
    · rfl
    · rfl
  · rfl

theorem serve_denied (st : ServerState) (req : Request) (env : RequestEnv)
    (h : (st.limiter.allowIP req.ip req.time).1 = false) :
    (serve st req env).response = .rateLimited ∧
    (serve st req env).state.store = st.store := by
  simp [serve, h]

theorem serveSeq_append (st : ServerState)
    (l1 l2 : List (Request × RequestEnv)) :
    serveSeq st (l1 ++ l2) =
      ((serveSeq st l1).1 ++ (serveSeq (serveSeq st l1).2 l2).1,
       (serveSeq (serveSeq st l1).2 l2).2) := by
  induction l1 generalizing st with
  | nil => simp [serveSeq]
  | cons p ts ih =>
    obtain ⟨req, env⟩ := p
    simp [serveSeq, ih]

/-- Repeatedly serving one fixed instant request from a client whose
bucket holds `j` whole tokens: the first `j` are admitted with the
request's admitted response, the rest are rate-limited, and every
admission drains one token from the shared bucket. -/
theorem serveSeq_instant_template (ip : String) (req : Request)
    (env : RequestEnv) (resp0 : HttpResponse) (s0 : Store)
    (hip : req.ip = ip) (ht : req.time = 0)
    (hstep : ∀ st : ServerState, st.store = s0 →
      (st.limiter.allowIP ip 0).1 = true →
      (serve st req env).response = resp0 ∧
      (serve st req env).state.store = s0)
    (K : Nat) :
    ∀ (st : ServerState) (j : Nat), j ≤ st.limiter.burst →
      st.limiter.getBucket ip 0 = ⟨(j : ℚ), 0⟩ → st.store = s0 →
      (serveSeq st (List.replicate K (req, env))).1 =
        List.replicate (min K j) resp0 ++
        List.replicate (K - j) HttpResponse.rateLimited ∧
      (serveSeq st (List.replicate K (req, env))).2.store = s0 ∧
      (serveSeq st (List.replicate K (req, env))).2.limiter.getBucket ip 0 =
        ⟨((j - K : Nat) : ℚ), 0⟩ ∧
      (serveSeq st (List.replicate K (req, env))).2.limiter.rateLim =
        st.limiter.rateLim ∧
      (serveSeq st (List.replicate K (req, env))).2.limiter.burst =
        st.limiter.burst := by
  induction K with
  | zero =>
    intro st j hj hb hs
    exact ⟨by simp [serveSeq], by simpa [serveSeq] using hs,
      by simpa [serveSeq] using hb, rfl, rfl⟩
  | succ K ih =>
    intro st j hj hb hs
    rw [List.replicate_succ]
    simp only [serveSeq]
    have hadmEq := allowIP_instant st.limiter ip j hj hb
    have hlim : (serve st req env).state.limiter =
        (st.limiter.allowIP ip 0).2 := by
      rw [serve_limiter, hip, ht]
    by_cases h1 : 1 ≤ j
    · have hadm : (st.limiter.allowIP ip 0).1 = true := by
        rw [hadmEq, if_pos h1]
      have hout := hstep st hs hadm
      have hlim2 : (serve st req env).state.limiter =
          ⟨assocUpsert st.limiter.ips ip ⟨((j - 1 : Nat) : ℚ), 0⟩,
            st.limiter.rateLim, st.limiter.burst⟩ := by
        rw [hlim, hadmEq, if_pos h1]
      have hb1 : (serve st req env).state.limiter.getBucket ip 0 =
          ⟨((j - 1 : Nat) : ℚ), 0⟩ := by
        rw [hlim2]
        exact getBucket_upsert _ _ _ _ _ _
      have hj1 : j - 1 ≤ (serve st req env).state.limiter.burst := by
        rw [hlim2]
        have hle : j - 1 ≤ st.limiter.burst := by omega
        exact hle
      obtain ⟨ihl, ihs, ihb, ihr, ihbu⟩ :=
        ih (serve st req env).state (j - 1) hj1 hb1 hout.2
      refine ⟨?_, ihs, ?_, ?_, ?_⟩
      · rw [hout.1, ihl]
        have h2 : min (K + 1) j = min K (j - 1) + 1 := by omega
        have h3 : K + 1 - j = K - (j - 1) := by omega
        rw [h2, h3, List.replicate_succ, List.cons_append]
      · rw [show j - (K + 1) = (j - 1) - K by omega]
        exact ihb
      · rw [ihr, hlim2]
      · rw [ihbu, hlim2]
    · have hj0 : j = 0 := by omega
      subst hj0
      have hadm : (st.limiter.allowIP ip 0).1 = false := by
        rw [hadmEq, if_neg h1]
      have hadmserve : (st.limiter.allowIP req.ip req.time).1 = false := by
        rw [hip, ht]
        exact hadm
      have hden := serve_denied st req env hadmserve
      have hlim2 : (serve st req env).state.limiter =
          ⟨assocUpsert st.limiter.ips ip ⟨((0 : Nat) : ℚ), 0⟩,
            st.limiter.rateLim, st.limiter.burst⟩ := by
        rw [hlim, hadmEq, if_neg h1]
      have hb1 : (serve st req env).state.limiter.getBucket ip 0 =
          ⟨((0 : Nat) : ℚ), 0⟩ := by
        rw [hlim2]
        exact getBucket_upsert _ _ _ _ _ _
      obtain ⟨ihl, ihs, ihb, ihr, ihbu⟩ :=
        ih (serve st req env).state 0 (Nat.zero_le _) hb1
          (hden.2.trans hs)
      refine ⟨?_, ihs, ?_, ?_, ?_⟩
      · rw [hden.1, ihl]
        simp [List.replicate_succ]
      · simpa using ihb
      · rw [ihr, hlim2]
      · rw [ihbu, hlim2]

/-- A GET of the root form page from the given client at time 0. -/
def rootGetReq (ip : String) : Request := ⟨ip, 0, .get, "/", "", false⟩

/-- A well-formed lookup submission from the given client at time 0. -/
def lookupPostReq (ip : String) : Request :=
  ⟨ip, 0, .post, "/lookup", "9876543210", false⟩

/-- A request environment whose upstream transport always fails and whose
store operations succeed. -/
def unavailableEnv : RequestEnv := ⟨false, false, fun _ => .connFail⟩

/-- C10: requests to the root form page pass through the same rate
limiter, consuming a token from the very same per-IP bucket as lookup
submissions: every served request advances the limiter by the same
admission step; from a fresh client, root loads alone are admitted
exactly `burst` times and then yield the 429 response; and after `k ≤ 5`
root loads only `5 - k` instant lookup submissions are admitted before
rate limiting begins. -/
theorem claim_C10_root_page_shares_rate_bucket :
    (∀ (st : ServerState) (req : Request) (env : RequestEnv),
      (serve st req env).state.limiter =
        (st.limiter.allowIP req.ip req.time).2) ∧
    (∀ (ip : String) (K : Nat),
      (serveSeq ⟨mainLimiter, []⟩
        (List.replicate K (rootGetReq ip, unavailableEnv))).1 =
        List.replicate (min K 5) HttpResponse.formPage ++
        List.replicate (K - 5) HttpResponse.rateLimited) ∧
    (∀ (ip : String) (k m : Nat), k ≤ 5 →
      (serveSeq ⟨mainLimiter, []⟩
        (List.replicate k (rootGetReq ip, unavailableEnv) ++
         List.replicate m (lookupPostReq ip, unavailableEnv))).1 =
        List.replicate k HttpResponse.formPage ++
        (List.replicate (min m (5 - k)) HttpResponse.serviceUnavailable ++
         List.replicate (m - (5 - k)) HttpResponse.rateLimited)) := by
  have hstepRoot : ∀ (ip : String) (st : ServerState), st.store = [] →
      (st.limiter.allowIP ip 0).1 = true →
      (serve st (rootGetReq ip) unavailableEnv).response =
        HttpResponse.formPage ∧
      (serve st (rootGetReq ip) unavailableEnv).state.store = [] := by
    intro ip st hs hadm
    constructor
    · simp [serve, rootGetReq, hadm, handleRoot]
    · simp [serve, rootGetReq, hadm, hs]
  have hstepLookup : ∀ (ip : String) (st : ServerState), st.store = [] →
      (st.limiter.allowIP ip 0).1 = true →
      (serve st (lookupPostReq ip) unavailableEnv).response =
        HttpResponse.serviceUnavailable ∧
      (serve st (lookupPostReq ip) unavailableEnv).state.store = [] := by
    intro ip st hs hadm
    have hclean : cleanPhoneNumber "9876543210" = .ok "9876543210" := rfl
    have hup : (lookupMobileName (fun x => AttemptResult.connFail)).result =
        UpstreamResult.exhausted := rfl
    constructor
    · simp [serve, lookupPostReq, hadm, handleLookup, handleLookupPost,
        unavailableEnv, hclean, hup, hs, getMobileRecord]
    · simp [serve, lookupPostReq, hadm, handleLookup, handleLookupPost,
        unavailableEnv, hclean, hup, hs, getMobileRecord]
  refine ⟨serve_limiter, ?_, ?_⟩
  · intro ip K
    exact (serveSeq_instant_template ip (rootGetReq ip) unavailableEnv
      HttpResponse.formPage [] rfl rfl (hstepRoot ip) K
      ⟨mainLimiter, []⟩ 5 (by norm_num [mainLimiter, NewIPRateLimiter])
      rfl rfl).1
  · intro ip k m hk
    rw [serveSeq_append]
    obtain ⟨hresp1, hstore1, hbuck1, hrate1, hburst1⟩ :=
      serveSeq_instant_template ip (rootGetReq ip) unavailableEnv
        HttpResponse.formPage [] rfl rfl (hstepRoot ip) k
        ⟨mainLimiter, []⟩ 5 (by norm_num [mainLimiter, NewIPRateLimiter])
        rfl rfl
    obtain ⟨hresp2, hstore2, hbuck2, hrate2, hburst2⟩ :=
      serveSeq_instant_template ip (lookupPostReq ip) unavailableEnv
        HttpResponse.serviceUnavailable [] rfl rfl (hstepLookup ip) m
        (serveSeq ⟨mainLimiter, []⟩
          (List.replicate k (rootGetReq ip, unavailableEnv))).2 (5 - k)
        (by rw [hburst1]; norm_num [mainLimiter, NewIPRateLimiter])
        hbuck1 hstore1
    rw [hresp1, hresp2]
    have hmin : min k 5 = k := by omega
    have hz : k - 5 = 0 := by omega
    simp [hmin, hz]

theorem claim_C10_witness :
    (serveSeq ⟨mainLimiter, []⟩
      (List.replicate 1 (rootGetReq "1.2.3.4", unavailableEnv) ++
       List.replicate 5 (lookupPostReq "1.2.3.4", unavailableEnv))).1 =
      [HttpResponse.formPage, HttpResponse.serviceUnavailable,
       HttpResponse.serviceUnavailable, HttpResponse.serviceUnavailable,
       HttpResponse.serviceUnavailable, HttpResponse.rateLimited] := by
  have h := claim_C10_root_page_shares_rate_bucket.2.2 "1.2.3.4" 1 5
    (by omega)
  simpa [List.replicate] using h

end MobileLookup
